import Mathlib

/-!
# Verification of the conversion-engine core

Shallow embedding of the conversion engine of this repository
(`engine.ts`: `getEngine`, `initializeEngine`, `detectInputFormat`,
`findHandlerForFormat`, `convertFiles`) together with proofs of the
specification claims about it.

Modelling conventions:
* `FileFormat` mirrors the format record used by the engine; only the
  fields the embedded code reads (`format`, `internal`, `extension`,
  `mime`, `from`, `to`, `lossless`) are carried.  The `from` field is
  written `«from»` because `from` is a reserved word in Lean.
* JavaScript byte buffers become `List Nat` (only lengths matter to the
  embedded code), promises become explicit state transitions, and thrown
  exceptions become `Except` values.
* The repository's `TraversionGraph` and handler implementations are not
  part of the sources; where the engine calls into them they appear as
  parameters (the candidate-path sequence yielded by `searchPath`, a
  handler's `doConvert`/`init` behaviour) or as explicit state (the
  graph's dead-end path list).
-/

/-- A format record: `{format, internal, extension, mime, from, to, lossless}`
as consumed by the engine.  `format` is the display name and
`(format, internal)` is the identity key used by the catalog merge. -/
structure FileFormat where
  format : String
  internal : String
  extension : String
  mime : String
  «from» : Bool
  «to» : Bool
  lossless : Bool
  deriving DecidableEq, Repr

/-- A named byte buffer: `{name, bytes}`. -/
structure FileData where
  name : String
  bytes : List Nat
  deriving DecidableEq, Repr

/-- A format handler.  `name`, `ready` and `supportedFormats` mirror the
handler record; the externally implemented behaviour is carried as data:
`initThrows` says whether invoking `init()` rejects, `initFormats` is the
`supportedFormats` list a successful `init()` populates (`none` when init
leaves it unset), and `doConvert` is the conversion operation. -/
structure Handler where
  name : String
  ready : Bool
  supportedFormats : Option (List FileFormat)
  initThrows : Bool
  initFormats : Option (List FileFormat)
  doConvert : List FileData → FileFormat → FileFormat → Except Unit (List FileData)

/-- A vertex of a conversion path: a (handler, format) pair
(`ConvertPathNode`). -/
structure ConvertPathNode where
  handler : Handler
  format : FileFormat

/-! ## Catalog merge (`initializeEngine`, deduplication loop) -/

/-- The identity key of a format: the template string
`` `${f.format}::${f.internal}` ``. -/
def keyOf (f : FileFormat) : String :=
  f.format ++ "::" ++ f.internal

/-- Merging one more contributor into an existing catalog entry:
`existing.from = existing.from || f.from`, likewise `to`, and
`if (f.lossless) existing.lossless = true`. -/
def mergeFlags (g f : FileFormat) : FileFormat :=
  { g with «from» := g.«from» || f.«from», «to» := g.«to» || f.«to»,
           lossless := g.lossless || f.lossless }

/-- One step of the deduplication loop over `rawFormats`: update the entry
with the matching key in place, or append `(key, {...f})` at the end
(JavaScript `Map` keeps insertion order and `set` on a fresh key appends). -/
def insertFormat : List (String × FileFormat) → FileFormat → List (String × FileFormat)
  | [], f => [(keyOf f, f)]
  | (k, g) :: rest, f =>
    if k == keyOf f then (k, mergeFlags g f) :: rest
    else (k, g) :: insertFormat rest f

/-- The whole deduplication loop: fold `insertFormat` over the raw format
list and return `Array.from(formatMap.values())`. -/
def mergeFormats (raw : List FileFormat) : List FileFormat :=
  (raw.foldl insertFormat []).map (·.2)

/-- Lookup in an association list keyed by strings (JavaScript
`Map.get`; keys are unique in every map the engine builds). -/
def lookupCache : List (String × List FileFormat) → String → Option (List FileFormat)
  | [], _ => none
  | (k, v) :: rest, n => if k == n then some v else lookupCache rest n

/-- Entry lookup in the format map built by the merge loop (JavaScript
`Map.get` on the deduplication map). -/
def findEntry : List (String × FileFormat) → String → Option FileFormat
  | [], _ => none
  | (e, g) :: rest, k => if e == k then some g else findEntry rest k

/-- The `(from, to, lossless)` flag triple of the merged catalog entry with
identity key `k`, if one exists. -/
def mergedFlags (raw : List FileFormat) (k : String) : Option (Bool × Bool × Bool) :=
  ((mergeFormats raw).find? (fun g => keyOf g == k)).map
    (fun g => (g.«from», g.«to», g.lossless))

/-! ## Format detection and handler lookup -/

/-- JavaScript `name.split(".")`: split a character list at every dot,
keeping empty segments (the result is never empty). -/
def splitDot : List Char → List (List Char)
  | [] => [[]]
  | c :: rest =>
    match splitDot rest with
    | [] => []
    | seg :: segs => if c = '.' then [] :: seg :: segs else (c :: seg) :: segs

/-- JavaScript `toLowerCase()` on the ASCII alphabet (format extensions
and MIME strings are ASCII), written character-wise. -/
def strToLower (s : String) : String :=
  String.mk (s.data.map Char.toLower)

/-- `const extension = file.name.split(".").pop()?.toLowerCase() || ""`. -/
def fileExtension (name : String) : String :=
  String.mk (((splitDot name.data).getLast?.getD []).map Char.toLower)

/-- A browser `File` as the detector sees it: its `name` and its raw
`type`; mime normalization (`normalizeMimeType`) is an external
collaborator and is passed in as a function. -/
structure JsFile where
  name : String
  type : String
  deriving DecidableEq, Repr

/-- `detectInputFormat(file, allFormats)`: three find-strategies, first
match wins; strategy 1 is extension + MIME (or absent MIME), strategy 2 is
extension only, strategy 3 (only with a nonempty MIME) is MIME only; every
strategy requires `f.from`. -/
def detectInputFormat (normalizeMimeType : String → String) (file : JsFile)
    (allFormats : List FileFormat) : Option FileFormat :=
  let extension := fileExtension file.name
  let mime := normalizeMimeType file.type
  match allFormats.find? (fun f =>
      f.«from» && (strToLower f.extension == extension) &&
        (f.mime == mime || mime == "")) with
  | some m => some m
  | none =>
    match allFormats.find? (fun f =>
        f.«from» && (strToLower f.extension == extension)) with
    | some m => some m
    | none =>
      if mime != "" then
        allFormats.find? (fun f => f.«from» && (f.mime == mime))
      else none

/-- Strategy-1 predicate: `from`-capable, extension matches, and the MIME
matches or is absent. -/
def tier1 (extension mime : String) (f : FileFormat) : Bool :=
  f.«from» && (strToLower f.extension == extension) && (f.mime == mime || mime == "")

/-- Strategy-2 predicate: `from`-capable and the extension matches. -/
def tier2 (extension : String) (f : FileFormat) : Bool :=
  f.«from» && (strToLower f.extension == extension)

/-- Strategy-3 predicate: `from`-capable and the MIME matches. -/
def tier3 (mime : String) (f : FileFormat) : Bool :=
  f.«from» && (f.mime == mime)

/-- `findHandlerForFormat(format, handlers)`: the first handler, in
registration order, whose `supportedFormats` contains an entry equal to
the target by `(internal, format)`; handlers with no `supportedFormats`
never match. -/
def findHandlerForFormat (format : FileFormat) (handlers : List Handler) :
    Option Handler :=
  handlers.find? (fun h =>
    match h.supportedFormats with
    | some fs => fs.any (fun f =>
        f.internal == format.internal && f.format == format.format)
    | none => false)

/-! ## Engine bootstrap (`initializeEngine`, `getEngine`) -/

/-- The mutable state threaded through the handler-initialization loop:
the `supportedFormatCache` map, the `rawFormats` accumulator, and (as
instrumentation of the observable calls) the names of the handlers whose
`init()` was invoked. -/
structure InitState where
  cache : List (String × List FileFormat)
  raw : List FileFormat
  inited : List String
  deriving Repr

/-- The per-handler loop of `initializeEngine`: a handler present in the
cache adopts the cached formats and is skipped; otherwise `init()` is
invoked — a rejection is caught and the handler left untouched, and a
success stores `supportedFormats` in the cache and appends them to
`rawFormats` (when `init` populated them). Returns the updated handler
list alongside the final state. -/
def initLoop (s : InitState) : List Handler → List Handler × InitState
  | [] => ([], s)
  | h :: hs =>
    match lookupCache s.cache h.name with
    | some fs =>
      let r := initLoop s hs
      ({ h with supportedFormats := some fs } :: r.1, r.2)
    | none =>
      if h.initThrows then
        let r := initLoop { s with inited := s.inited ++ [h.name] } hs
        (h :: r.1, r.2)
      else
        match h.initFormats with
        | some fs =>
          let r := initLoop
            { cache := s.cache ++ [(h.name, fs)], raw := s.raw ++ fs,
              inited := s.inited ++ [h.name] } hs
          ({ h with supportedFormats := some fs } :: r.1, r.2)
        | none =>
          let r := initLoop { s with inited := s.inited ++ [h.name] } hs
          (h :: r.1, r.2)

/-- The state after the optional snapshot (`cache.json`) was loaded: every
snapshot entry is stored in the cache and its formats pushed onto
`rawFormats`; a missing snapshot leaves both empty. -/
def initState (snapshot : Option (List (String × List FileFormat))) : InitState :=
  match snapshot with
  | some es => ⟨es, es.foldl (fun acc e => acc ++ e.2) [], []⟩
  | none => ⟨[], [], []⟩

/-- The engine aggregate (`ConversionEngine`).  The `graph` field of the
source is built by the external `TraversionGraph` module and is modelled
separately (its dead-end list is threaded through the executor). -/
structure Engine where
  handlers : List Handler
  allFormats : List FileFormat
  supportedFormatCache : List (String × List FileFormat)
  ready : Bool

/-- `initializeEngine()`: load the snapshot, run the handler loop, merge
the raw formats into the catalog, and return the ready engine (paired with
the instrumented list of handlers whose `init()` ran). -/
def initializeEngine (snapshot : Option (List (String × List FileFormat)))
    (handlers : List Handler) : Engine × List String :=
  let r := initLoop (initState snapshot) handlers
  (⟨r.1, mergeFormats r.2.raw, r.2.cache, true⟩, r.2.inited)

/-- An event visible to the module-level memoization in `getEngine`:
a caller (tagged by an id) invokes `getEngine`, or the in-flight
`initializeEngine()` promise settles. -/
inductive GetEvent
  | call (cid : Nat)
  | resolve

/-- The module-level state of `engine.ts`: `engineInstance`, whether
`initPromise` is set, the callers currently awaiting that promise, the
calls that have completed (with the engine each received), and how many
times construction was started. -/
structure SysState where
  engineInstance : Option Engine
  initPromiseActive : Bool
  pendingCallers : List Nat
  completed : List (Nat × Engine)
  builds : Nat

/-- The state before any `getEngine` call. -/
def sysInit : SysState :=
  ⟨none, false, [], [], 0⟩

/-- One event of the `getEngine` protocol.  A call returns `engineInstance`
when it is set and ready; otherwise it awaits `initPromise`, creating it
(and starting construction) only when absent.  `resolve` is the completion
of `initializeEngine()`: it stores the built engine in `engineInstance`
and settles every awaiting caller with that same engine. -/
def getEngineStep (built : Engine) (s : SysState) : GetEvent → SysState
  | .call cid =>
    match s.engineInstance with
    | some e =>
      if e.ready then { s with completed := (cid, e) :: s.completed }
      else if s.initPromiseActive then
        { s with pendingCallers := cid :: s.pendingCallers }
      else
        { s with initPromiseActive := true, pendingCallers := [cid],
                 builds := s.builds + 1 }
    | none =>
      if s.initPromiseActive then
        { s with pendingCallers := cid :: s.pendingCallers }
      else
        { s with initPromiseActive := true, pendingCallers := [cid],
                 builds := s.builds + 1 }
  | .resolve =>
    if s.initPromiseActive then
      { s with engineInstance := some built,
               completed := s.pendingCallers.map (fun c => (c, built)) ++ s.completed,
               pendingCallers := [] }
    else s

/-- Run a sequence of `getEngine` events from the initial module state. -/
def runSys (built : Engine) (evs : List GetEvent) : SysState :=
  evs.foldl (getEngineStep built) sysInit

/-! ## Executor (`convertFiles`) -/

/-- The signature of a candidate path: the hops joined as
`` `${n.handler.name}:${n.format.internal}` `` with `"->"` separators. -/
def pathKey (p : List ConvertPathNode) : String :=
  String.intercalate "->" (p.map (fun n => n.handler.name ++ ":" ++ n.format.internal))

/-- The message of the terminal error thrown when every candidate path is
exhausted; it names the requested input and output formats. -/
def noPathMsg (inF outF : FileFormat) : String :=
  "Could not find a working conversion path from " ++ inF.format ++
    " to " ++ outF.format

/-- One hop of a candidate path, from node `a` to node `b`: lazily
initialize `b.handler` when it is not ready (a rejected `init` fails the
hop), invoke `doConvert` with the current working files and the hop's
(source, destination) formats, then fail if any resulting file has
zero-length bytes. -/
def hopStep (cur : List FileData) (a b : ConvertPathNode) :
    Except Unit (List FileData) :=
  if !b.handler.ready && b.handler.initThrows then .error ()
  else
    match b.handler.doConvert cur a.format b.format with
    | .error e => .error e
    | .ok out =>
      if out.any (fun f => f.bytes.length == 0) then .error ()
      else .ok out

/-- The hop loop of one path attempt: fold `hopStep` over consecutive
vertex pairs, threading the working file set; a path with fewer than two
vertices performs no hops. -/
def runHops (cur : List FileData) : List ConvertPathNode → Except Unit (List FileData)
  | [] => .ok cur
  | [_] => .ok cur
  | a :: b :: rest =>
    match hopStep cur a b with
    | .error e => .error e
    | .ok out => runHops out (b :: rest)

/-- `HopReach files0 p cur suffix` says that executing the hop loop of
path `p` from working files `files0` reaches the state where the working
files are `cur` and the vertices still to process are `suffix`. -/
inductive HopReach : List FileData → List ConvertPathNode → List FileData →
    List ConvertPathNode → Prop
  | refl (fs : List FileData) (p : List ConvertPathNode) : HopReach fs p fs p
  | step {fs out cur : List FileData} {a b : ConvertPathNode}
      {rest suffix : List ConvertPathNode}
      (hhop : hopStep fs a b = .ok out)
      (htail : HopReach out (b :: rest) cur suffix) :
      HopReach fs (a :: b :: rest) cur suffix

/-- The observable outcome of one path attempt: the attempt threw (a hop
failed or produced a zero-length file), completed with an empty file list,
or completed successfully with the produced files. -/
inductive AttemptOutcome
  | threw
  | okEmpty
  | okSuccess (files : List FileData)

/-- A successful conversion: the produced files and the path used. -/
structure ConversionResult where
  files : List FileData
  path : List ConvertPathNode

/-- The outcome of one top-level `convertFiles` run: the returned value or
thrown error, the graph's dead-end path list afterwards, and (as
instrumentation of the observable handler invocations) the sequence of
path attempts with their outcomes. -/
structure RunOut where
  result : Except String ConversionResult
  deadEnds : List (List ConvertPathNode)
  events : List (List ConvertPathNode × AttemptOutcome)

/-- The candidate loop of `convertFiles`: for each yielded path, skip it
when its signature is in the local `failedPaths` set; otherwise run its
hops from the materialized input files.  A throw records the signature in
`failedPaths` and the path in the graph's dead-end memory and advances; a
completed attempt returns the files and path when the file list is
nonempty and silently advances otherwise.  Exhaustion throws the terminal
no-path error. -/
def convertLoop (files0 : List FileData) (inF outF : FileFormat) :
    List (List ConvertPathNode) → List String → List (List ConvertPathNode) → RunOut
  | [], _, de => ⟨.error (noPathMsg inF outF), de, []⟩
  | p :: rest, failed, de =>
    if failed.contains (pathKey p) then
      convertLoop files0 inF outF rest failed de
    else
      match runHops files0 p with
      | .error _ =>
        let r := convertLoop files0 inF outF rest (pathKey p :: failed) (de ++ [p])
        ⟨r.result, r.deadEnds, (p, .threw) :: r.events⟩
      | .ok out =>
        if out.length > 0 then ⟨.ok ⟨out, p⟩, de, [(p, .okSuccess out)]⟩
        else
          let r := convertLoop files0 inF outF rest failed de
          ⟨r.result, r.deadEnds, (p, .okEmpty) :: r.events⟩

/-- A top-level `convertFiles` call, given the candidate paths the graph's
`searchPath` yields and the graph's dead-end memory from earlier attempts:
`clearDeadEndPaths()` discards the previous memory, the local
`failedPaths` set starts empty, and the candidate loop runs. -/
def convertFiles (files0 : List FileData) (inF outF : FileFormat)
    (paths : List (List ConvertPathNode))
    (_prevDeadEnds : List (List ConvertPathNode)) : RunOut :=
  convertLoop files0 inF outF paths [] []

/-- A top-level `convertFiles` call including anchor resolution: the input
and output formats are looked up with `findHandlerForFormat`, a failed
lookup falls back to `engine.handlers[0]` (the engine's handler list,
`h0 :: hs`, is nonempty whenever the deployed registry is), and the
anchor nodes are handed to the graph's `searchPath` (a parameter, as
`TraversionGraph` is external to these sources). -/
def convertFilesFull
    (searchPath : ConvertPathNode → ConvertPathNode → Bool → List (List ConvertPathNode))
    (files0 : List FileData) (inF outF : FileFormat) (h0 : Handler)
    (hs : List Handler) (simpleMode : Bool)
    (prevDeadEnds : List (List ConvertPathNode)) : RunOut :=
  let handlers := h0 :: hs
  let fromHandler := (findHandlerForFormat inF handlers).getD h0
  let toHandler := (findHandlerForFormat outF handlers).getD h0
  convertFiles files0 inF outF
    (searchPath ⟨fromHandler, inF⟩ ⟨toHandler, outF⟩ simpleMode) prevDeadEnds

/-! ## Sample formats, handlers and paths used by witnesses -/

/-- A sample `from`-capable input format. -/
def fmtIn : FileFormat := ⟨"svg", "svg", "svg", "image/svg+xml", true, false, false⟩

/-- A sample output format. -/
def fmtOut : FileFormat := ⟨"png", "png", "png", "image/png", true, true, false⟩

/-- A format no sample handler supports. -/
def fmtOrphan : FileFormat := ⟨"xyz", "xyz", "xyz", "application/xyz", true, true, false⟩

/-- A ready handler whose conversion returns its input unchanged. -/
def hGood : Handler :=
  ⟨"good", true, some [fmtIn, fmtOut], false, some [fmtIn, fmtOut],
    fun files _ _ => .ok files⟩

/-- A ready handler whose conversion always rejects. -/
def hBad : Handler :=
  ⟨"bad", true, some [fmtIn, fmtOut], false, some [fmtIn, fmtOut],
    fun _ _ _ => .error ()⟩

/-- A ready handler whose conversion returns one zero-length file. -/
def hZero : Handler :=
  ⟨"zero", true, some [fmtIn, fmtOut], false, none,
    fun _ _ _ => .ok [⟨"o.png", []⟩]⟩

/-- A ready handler whose conversion returns an empty file list. -/
def hEmpty : Handler :=
  ⟨"empty", true, some [fmtIn, fmtOut], false, none, fun _ _ _ => .ok []⟩

/-- A sample input file. -/
def fdIn : FileData := ⟨"a.svg", [1, 2, 3]⟩

/-- A one-hop path through `hGood`. -/
def pGood : List ConvertPathNode := [⟨hGood, fmtIn⟩, ⟨hGood, fmtOut⟩]

/-- A one-hop path through `hBad`. -/
def pBad : List ConvertPathNode := [⟨hBad, fmtIn⟩, ⟨hBad, fmtOut⟩]

/-- A one-hop path through `hZero`. -/
def pZero : List ConvertPathNode := [⟨hZero, fmtIn⟩, ⟨hZero, fmtOut⟩]

/-- A one-hop path through `hEmpty`. -/
def pEmpty : List ConvertPathNode := [⟨hEmpty, fmtIn⟩, ⟨hEmpty, fmtOut⟩]

/-! ## Executor lemmas -/

/-- Exhaustion: the candidate loop over an empty sequence throws the
terminal no-path error. -/
theorem convertLoop_nil (files0 : List FileData) (inF outF : FileFormat)
    (failed : List String) (de : List (List ConvertPathNode)) :
    convertLoop files0 inF outF [] failed de =
      ⟨.error (noPathMsg inF outF), de, []⟩ := rfl

/-- A candidate whose signature is in the local failed set is skipped. -/
theorem convertLoop_skip (files0 : List FileData) (inF outF : FileFormat)
    (p : List ConvertPathNode) (rest : List (List ConvertPathNode))
    (failed : List String) (de : List (List ConvertPathNode))
    (hc : failed.contains (pathKey p) = true) :
    convertLoop files0 inF outF (p :: rest) failed de =
      convertLoop files0 inF outF rest failed de := by
  rw [convertLoop]
  exact if_pos hc

/-- A candidate whose attempt throws is recorded (signature in the failed
set, path in dead-end memory) and the loop advances. -/
theorem convertLoop_threw (files0 : List FileData) (inF outF : FileFormat)
    (p : List ConvertPathNode) (rest : List (List ConvertPathNode))
    (failed : List String) (de : List (List ConvertPathNode)) (e : Unit)
    (hc : failed.contains (pathKey p) = false)
    (hr : runHops files0 p = .error e) :
    convertLoop files0 inF outF (p :: rest) failed de =
      ⟨(convertLoop files0 inF outF rest (pathKey p :: failed) (de ++ [p])).result,
       (convertLoop files0 inF outF rest (pathKey p :: failed) (de ++ [p])).deadEnds,
       (p, .threw) ::
         (convertLoop files0 inF outF rest (pathKey p :: failed) (de ++ [p])).events⟩ := by
  rw [convertLoop, if_neg (by simpa using hc), hr]

/-- A candidate whose attempt completes with a nonempty file list returns
immediately with those files and that path. -/
theorem convertLoop_success (files0 : List FileData) (inF outF : FileFormat)
    (p : List ConvertPathNode) (rest : List (List ConvertPathNode))
    (failed : List String) (de : List (List ConvertPathNode)) (out : List FileData)
    (hc : failed.contains (pathKey p) = false)
    (hr : runHops files0 p = .ok out) (hl : out.length > 0) :
    convertLoop files0 inF outF (p :: rest) failed de =
      ⟨.ok ⟨out, p⟩, de, [(p, .okSuccess out)]⟩ := by
  rw [convertLoop, if_neg (by simpa using hc), hr]
  exact if_pos hl

/-- A candidate whose attempt completes with an empty file list is neither
returned nor recorded: the loop silently advances. -/
theorem convertLoop_okEmpty (files0 : List FileData) (inF outF : FileFormat)
    (p : List ConvertPathNode) (rest : List (List ConvertPathNode))
    (failed : List String) (de : List (List ConvertPathNode)) (out : List FileData)
    (hc : failed.contains (pathKey p) = false)
    (hr : runHops files0 p = .ok out) (hl : ¬ out.length > 0) :
    convertLoop files0 inF outF (p :: rest) failed de =
      ⟨(convertLoop files0 inF outF rest failed de).result,
       (convertLoop files0 inF outF rest failed de).deadEnds,
       (p, .okEmpty) :: (convertLoop files0 inF outF rest failed de).events⟩ := by
  rw [convertLoop, if_neg (by simpa using hc), hr]
  exact if_neg hl

/-- Every attempted path had, when attempted, a signature outside the
failed set the loop started with. -/
theorem convertLoop_events_key (files0 : List FileData) (inF outF : FileFormat) :
    ∀ (paths : List (List ConvertPathNode)) (failed : List String)
      (de : List (List ConvertPathNode)) (ev : List ConvertPathNode × AttemptOutcome),
      ev ∈ (convertLoop files0 inF outF paths failed de).events →
      failed.contains (pathKey ev.1) = false := by
  intro paths
  induction paths with
  | nil => intro failed de ev hev; rw [convertLoop_nil] at hev; simp at hev
  | cons p rest ih =>
    intro failed de ev hev
    cases hc : failed.contains (pathKey p) with
    | true =>
      rw [convertLoop_skip files0 inF outF p rest failed de hc] at hev
      exact ih failed de ev hev
    | false =>
      rcases hr : runHops files0 p with e | out
      · rw [convertLoop_threw files0 inF outF p rest failed de e hc hr] at hev
        simp only [List.mem_cons] at hev
        rcases hev with rfl | hev
        · exact hc
        · have h2 := ih (pathKey p :: failed) (de ++ [p]) ev hev
          simp only [List.contains_cons, Bool.or_eq_false_iff] at h2
          exact h2.2
      · by_cases hl : out.length > 0
        · rw [convertLoop_success files0 inF outF p rest failed de out hc hr hl] at hev
          simp only [List.mem_singleton] at hev
          subst hev
          exact hc
        · rw [convertLoop_okEmpty files0 inF outF p rest failed de out hc hr hl] at hev
          simp only [List.mem_cons] at hev
          rcases hev with rfl | hev
          · exact hc
          · exact ih failed de ev hev

/-- Once an attempt of some path has thrown, no later attempt in the same
run has the same signature. -/
theorem convertLoop_events_pairwise (files0 : List FileData) (inF outF : FileFormat) :
    ∀ (paths : List (List ConvertPathNode)) (failed : List String)
      (de : List (List ConvertPathNode)),
      ((convertLoop files0 inF outF paths failed de).events).Pairwise
        (fun a b => a.2 = .threw → pathKey b.1 ≠ pathKey a.1) := by
  intro paths
  induction paths with
  | nil => intro failed de; rw [convertLoop_nil]; simp
  | cons p rest ih =>
    intro failed de
    cases hc : failed.contains (pathKey p) with
    | true =>
      rw [convertLoop_skip files0 inF outF p rest failed de hc]
      exact ih failed de
    | false =>
      rcases hr : runHops files0 p with e | out
      · rw [convertLoop_threw files0 inF outF p rest failed de e hc hr]
        refine List.Pairwise.cons ?_ (ih (pathKey p :: failed) (de ++ [p]))
        intro ev hev _
        have h2 := convertLoop_events_key files0 inF outF rest (pathKey p :: failed)
          (de ++ [p]) ev hev
        simp only [List.contains_cons, Bool.or_eq_false_iff] at h2
        intro hkey
        rw [hkey] at h2
        simp at h2
      · by_cases hl : out.length > 0
        · rw [convertLoop_success files0 inF outF p rest failed de out hc hr hl]
          simp
        · rw [convertLoop_okEmpty files0 inF outF p rest failed de out hc hr hl]
          refine List.Pairwise.cons ?_ (ih failed de)
          intro ev _ habs
          simp at habs

/-- The graph's dead-end list only grows during the candidate loop. -/
theorem convertLoop_deadEnds_mono (files0 : List FileData) (inF outF : FileFormat) :
    ∀ (paths : List (List ConvertPathNode)) (failed : List String)
      (de : List (List ConvertPathNode)),
      de ⊆ (convertLoop files0 inF outF paths failed de).deadEnds := by
  intro paths
  induction paths with
  | nil =>
    intro failed de
    rw [convertLoop_nil]
    exact List.Subset.refl de
  | cons p rest ih =>
    intro failed de
    cases hc : failed.contains (pathKey p) with
    | true =>
      rw [convertLoop_skip files0 inF outF p rest failed de hc]
      exact ih failed de
    | false =>
      rcases hr : runHops files0 p with e | out
      · rw [convertLoop_threw files0 inF outF p rest failed de e hc hr]
        exact (List.subset_append_left de [p]).trans
          (ih (pathKey p :: failed) (de ++ [p]))
      · by_cases hl : out.length > 0
        · rw [convertLoop_success files0 inF outF p rest failed de out hc hr hl]
          exact List.Subset.refl de
        · rw [convertLoop_okEmpty files0 inF outF p rest failed de out hc hr hl]
          exact ih failed de

/-- Every path whose attempt threw ends up in the dead-end memory. -/
theorem convertLoop_threw_recorded (files0 : List FileData) (inF outF : FileFormat) :
    ∀ (paths : List (List ConvertPathNode)) (failed : List String)
      (de : List (List ConvertPathNode)) (ev : List ConvertPathNode × AttemptOutcome),
      ev ∈ (convertLoop files0 inF outF paths failed de).events →
      ev.2 = .threw →
      ev.1 ∈ (convertLoop files0 inF outF paths failed de).deadEnds := by
  intro paths
  induction paths with
  | nil => intro failed de ev hev; rw [convertLoop_nil] at hev; simp at hev
  | cons p rest ih =>
    intro failed de ev hev hthrew
    cases hc : failed.contains (pathKey p) with
    | true =>
      rw [convertLoop_skip files0 inF outF p rest failed de hc] at hev ⊢
      exact ih failed de ev hev hthrew
    | false =>
      rcases hr : runHops files0 p with e | out
      · rw [convertLoop_threw files0 inF outF p rest failed de e hc hr] at hev ⊢
        simp only [List.mem_cons] at hev
        rcases hev with rfl | hev
        · exact convertLoop_deadEnds_mono files0 inF outF rest (pathKey p :: failed)
            (de ++ [p]) (by simp)
        · exact ih (pathKey p :: failed) (de ++ [p]) ev hev hthrew
      · by_cases hl : out.length > 0
        · rw [convertLoop_success files0 inF outF p rest failed de out hc hr hl] at hev
          simp only [List.mem_singleton] at hev
          subst hev
          simp at hthrew
        · rw [convertLoop_okEmpty files0 inF outF p rest failed de out hc hr hl] at hev ⊢
          simp only [List.mem_cons] at hev
          rcases hev with rfl | hev
          · simp at hthrew
          · exact ih failed de ev hev hthrew

/-- Every path in the final dead-end memory was either already there when
the loop started or was attempted and threw during the loop. -/
theorem convertLoop_deadEnds_from_events (files0 : List FileData)
    (inF outF : FileFormat) :
    ∀ (paths : List (List ConvertPathNode)) (failed : List String)
      (de : List (List ConvertPathNode)) (q : List ConvertPathNode),
      q ∈ (convertLoop files0 inF outF paths failed de).deadEnds →
      q ∈ de ∨ (q, AttemptOutcome.threw) ∈
        (convertLoop files0 inF outF paths failed de).events := by
  intro paths
  induction paths with
  | nil => intro failed de q hq; rw [convertLoop_nil] at hq ⊢; exact Or.inl hq
  | cons p rest ih =>
    intro failed de q hq
    cases hc : failed.contains (pathKey p) with
    | true =>
      rw [convertLoop_skip files0 inF outF p rest failed de hc] at hq ⊢
      exact ih failed de q hq
    | false =>
      rcases hr : runHops files0 p with e | out
      · rw [convertLoop_threw files0 inF outF p rest failed de e hc hr] at hq ⊢
        rcases ih (pathKey p :: failed) (de ++ [p]) q hq with hin | hev
        · rcases List.mem_append.mp hin with hin | hin
          · exact Or.inl hin
          · simp only [List.mem_singleton] at hin
            subst hin
            exact Or.inr (List.mem_cons_self _ _)
        · exact Or.inr (List.mem_cons_of_mem _ hev)
      · by_cases hl : out.length > 0
        · rw [convertLoop_success files0 inF outF p rest failed de out hc hr hl] at hq ⊢
          exact Or.inl hq
        · rw [convertLoop_okEmpty files0 inF outF p rest failed de out hc hr hl] at hq ⊢
          rcases ih failed de q hq with hin | hev
          · exact Or.inl hin
          · exact Or.inr (List.mem_cons_of_mem _ hev)

/-- Once an attempt throws somewhere along the remaining hops, the whole
hop loop of the path throws. -/
theorem HopReach.runHops_error {files0 cur : List FileData}
    {p suffix : List ConvertPathNode} {e : Unit}
    (hreach : HopReach files0 p cur suffix)
    (herr : runHops cur suffix = .error e) :
    runHops files0 p = .error e := by
  induction hreach with
  | refl fs q => exact herr
  | step hhop _ ih =>
    rename_i fs out cur' a b rest suffix'
    rw [runHops, hhop]
    exact ih herr

/-- The only error the candidate loop ever produces is the terminal
no-path error naming the requested formats. -/
theorem convertLoop_error_msg (files0 : List FileData) (inF outF : FileFormat) :
    ∀ (paths : List (List ConvertPathNode)) (failed : List String)
      (de : List (List ConvertPathNode)) (msg : String),
      (convertLoop files0 inF outF paths failed de).result = .error msg →
      msg = noPathMsg inF outF := by
  intro paths
  induction paths with
  | nil =>
    intro failed de msg hmsg
    rw [convertLoop_nil] at hmsg
    exact (Except.error.inj hmsg).symm
  | cons p rest ih =>
    intro failed de msg hmsg
    cases hc : failed.contains (pathKey p) with
    | true =>
      rw [convertLoop_skip files0 inF outF p rest failed de hc] at hmsg
      exact ih failed de msg hmsg
    | false =>
      rcases hr : runHops files0 p with e | out
      · rw [convertLoop_threw files0 inF outF p rest failed de e hc hr] at hmsg
        exact ih (pathKey p :: failed) (de ++ [p]) msg hmsg
      · by_cases hl : out.length > 0
        · rw [convertLoop_success files0 inF outF p rest failed de out hc hr hl] at hmsg
          simp at hmsg
        · rw [convertLoop_okEmpty files0 inF outF p rest failed de out hc hr hl] at hmsg
          exact ih failed de msg hmsg

/-- When the candidate loop ends in the terminal error, no attempt during
the loop had completed successfully. -/
theorem convertLoop_error_no_success (files0 : List FileData) (inF outF : FileFormat) :
    ∀ (paths : List (List ConvertPathNode)) (failed : List String)
      (de : List (List ConvertPathNode)) (msg : String),
      (convertLoop files0 inF outF paths failed de).result = .error msg →
      ∀ ev ∈ (convertLoop files0 inF outF paths failed de).events,
        ∀ fs : List FileData, ev.2 ≠ .okSuccess fs := by
  intro paths
  induction paths with
  | nil =>
    intro failed de msg _ ev hev
    rw [convertLoop_nil] at hev
    simp at hev
  | cons p rest ih =>
    intro failed de msg hmsg ev hev fs
    cases hc : failed.contains (pathKey p) with
    | true =>
      rw [convertLoop_skip files0 inF outF p rest failed de hc] at hmsg hev
      exact ih failed de msg hmsg ev hev fs
    | false =>
      rcases hr : runHops files0 p with e | out
      · rw [convertLoop_threw files0 inF outF p rest failed de e hc hr] at hmsg hev
        simp only [List.mem_cons] at hev
        rcases hev with rfl | hev
        · simp
        · exact ih (pathKey p :: failed) (de ++ [p]) msg hmsg ev hev fs
      · by_cases hl : out.length > 0
        · rw [convertLoop_success files0 inF outF p rest failed de out hc hr hl] at hmsg
          simp at hmsg
        · rw [convertLoop_okEmpty files0 inF outF p rest failed de out hc hr hl] at hmsg hev
          simp only [List.mem_cons] at hev
          rcases hev with rfl | hev
          · simp
          · exact ih failed de msg hmsg ev hev fs

/-! ## Claim theorems: executor -/

/-- C1: within one top-level conversion attempt, a path whose signature
has been recorded as failed is never re-attempted in that same attempt:
`convertFiles` clears the dead-end memory at the start of each call (its
outcome is independent of the memory left behind by previous attempts, and
the final memory holds exactly this call's failures), records every failed
path's signature, and never attempts a later candidate whose signature
matches an earlier failed attempt. -/
theorem convertFiles_no_reattempt (files0 : List FileData) (inF outF : FileFormat)
    (paths : List (List ConvertPathNode)) (de de' : List (List ConvertPathNode)) :
    convertFiles files0 inF outF paths de = convertFiles files0 inF outF paths de' ∧
    ((convertFiles files0 inF outF paths de).events).Pairwise
      (fun a b => a.2 = AttemptOutcome.threw → pathKey b.1 ≠ pathKey a.1) ∧
    (∀ ev ∈ (convertFiles files0 inF outF paths de).events,
      ev.2 = AttemptOutcome.threw →
      ev.1 ∈ (convertFiles files0 inF outF paths de).deadEnds) ∧
    (∀ q ∈ (convertFiles files0 inF outF paths de).deadEnds,
      (q, AttemptOutcome.threw) ∈ (convertFiles files0 inF outF paths de).events) :=
  ⟨rfl,
   convertLoop_events_pairwise files0 inF outF paths [] [],
   fun ev hev ht => convertLoop_threw_recorded files0 inF outF paths [] [] ev hev ht,
   fun q hq => by
     rcases convertLoop_deadEnds_from_events files0 inF outF paths [] [] q hq with h | h
     · simp at h
     · exact h⟩

/-- Witness for C1 at a concrete failing path: the failed path is recorded
in this call's dead-end memory. -/
theorem convertFiles_no_reattempt_witness :
    pBad ∈ (convertFiles [fdIn] fmtIn fmtOut [pBad] [pGood]).deadEnds :=
  (convertFiles_no_reattempt [fdIn] fmtIn fmtOut [pBad] [pGood] []).2.2.1
    (pBad, AttemptOutcome.threw) (List.Mem.head _) rfl

/-- C2: a hop whose conversion resolves with output containing a
zero-length file fails the whole path even though no error was thrown: the
path is recorded in dead-end memory, its signature is added to the local
failed set, and the executor advances to the next candidate instead of
returning. -/
theorem convertFiles_zero_length_fails (files0 cur out : List FileData)
    (inF outF : FileFormat) (a b : ConvertPathNode) (rest2 : List ConvertPathNode)
    (p : List ConvertPathNode) (restPaths : List (List ConvertPathNode))
    (failed : List String) (de : List (List ConvertPathNode))
    (hreach : HopReach files0 p cur (a :: b :: rest2))
    (hinit : (!b.handler.ready && b.handler.initThrows) = false)
    (hconv : b.handler.doConvert cur a.format b.format = .ok out)
    (hzero : out.any (fun f => f.bytes.length == 0) = true)
    (hns : failed.contains (pathKey p) = false) :
    runHops files0 p = .error () ∧
    convertLoop files0 inF outF (p :: restPaths) failed de =
      ⟨(convertLoop files0 inF outF restPaths (pathKey p :: failed) (de ++ [p])).result,
       (convertLoop files0 inF outF restPaths (pathKey p :: failed) (de ++ [p])).deadEnds,
       (p, AttemptOutcome.threw) ::
         (convertLoop files0 inF outF restPaths (pathKey p :: failed)
           (de ++ [p])).events⟩ := by
  have hhop : hopStep cur a b = .error () := by
    unfold hopStep
    rw [hinit]
    simp [hconv, hzero]
  have herr : runHops cur (a :: b :: rest2) = .error () := by
    rw [runHops, hhop]
  have hrun : runHops files0 p = .error () := hreach.runHops_error herr
  exact ⟨hrun, convertLoop_threw files0 inF outF p restPaths failed de () hns hrun⟩

/-- Witness for C2: a concrete handler returning a zero-length file makes
the executor record the path and advance; the loop then throws the
terminal error on exhaustion. -/
theorem convertFiles_zero_length_fails_witness :
    runHops [fdIn] pZero = .error () ∧
    convertLoop [fdIn] fmtIn fmtOut [pZero] [] [] =
      ⟨(convertLoop [fdIn] fmtIn fmtOut [] (pathKey pZero :: []) ([] ++ [pZero])).result,
       (convertLoop [fdIn] fmtIn fmtOut [] (pathKey pZero :: []) ([] ++ [pZero])).deadEnds,
       (pZero, AttemptOutcome.threw) ::
         (convertLoop [fdIn] fmtIn fmtOut [] (pathKey pZero :: [])
           ([] ++ [pZero])).events⟩ :=
  convertFiles_zero_length_fails [fdIn] [fdIn] [⟨"o.png", []⟩] fmtIn fmtOut
    ⟨hZero, fmtIn⟩ ⟨hZero, fmtOut⟩ [] pZero [] [] []
    (HopReach.refl [fdIn] pZero) rfl rfl rfl rfl

/-- C3: `convertFiles` never surfaces a per-path failure individually: the
only error it produces is the terminal no-path error naming the requested
input and output formats, produced only when the candidate sequence was
exhausted with no attempt succeeding; and a candidate completing all hops
with a nonempty file list returns immediately with those files and that
path. -/
theorem convertFiles_terminal_or_success (files0 : List FileData)
    (inF outF : FileFormat) (paths : List (List ConvertPathNode))
    (de : List (List ConvertPathNode)) (p : List ConvertPathNode)
    (restPaths : List (List ConvertPathNode)) (failed : List String)
    (de2 : List (List ConvertPathNode)) (out : List FileData) :
    (∀ msg, (convertFiles files0 inF outF paths de).result = .error msg →
        msg = noPathMsg inF outF ∧
        ∀ ev ∈ (convertFiles files0 inF outF paths de).events,
          ∀ fs : List FileData, ev.2 ≠ AttemptOutcome.okSuccess fs) ∧
    (failed.contains (pathKey p) = false → runHops files0 p = .ok out →
      out ≠ [] →
      convertLoop files0 inF outF (p :: restPaths) failed de2 =
        ⟨.ok ⟨out, p⟩, de2, [(p, AttemptOutcome.okSuccess out)]⟩) := by
  constructor
  · intro msg hmsg
    exact ⟨convertLoop_error_msg files0 inF outF paths [] [] msg hmsg,
           convertLoop_error_no_success files0 inF outF paths [] [] msg hmsg⟩
  · intro hc hr hne
    exact convertLoop_success files0 inF outF p restPaths failed de2 out hc hr
      (List.length_pos.mpr hne)

/-- Witness for C3: a concrete succeeding candidate returns immediately
with its files and path, and a concrete exhausted run produces exactly the
terminal message naming both formats. -/
theorem convertFiles_terminal_or_success_witness :
    (convertLoop [fdIn] fmtIn fmtOut [pGood] [] [] =
      ⟨.ok ⟨[fdIn], pGood⟩, [], [(pGood, AttemptOutcome.okSuccess [fdIn])]⟩) ∧
    noPathMsg fmtIn fmtOut = noPathMsg fmtIn fmtOut :=
  ⟨(convertFiles_terminal_or_success [fdIn] fmtIn fmtOut [pBad] [] pGood [] [] []
      [fdIn]).2 rfl rfl (by decide),
   ((convertFiles_terminal_or_success [fdIn] fmtIn fmtOut [pBad] [] pGood [] [] []
      [fdIn]).1 (noPathMsg fmtIn fmtOut) rfl).1⟩

/-- C10: a candidate that completes all hops without error and without a
zero-length file but with an empty file list is neither returned as a
success nor recorded anywhere: the loop silently advances with unchanged
state, so the same path would be re-attempted if yielded again in the same
call. -/
theorem convertFiles_empty_ok_silent (files0 : List FileData)
    (inF outF : FileFormat) (p : List ConvertPathNode)
    (restPaths : List (List ConvertPathNode)) (failed : List String)
    (de : List (List ConvertPathNode))
    (hns : failed.contains (pathKey p) = false)
    (hrun : runHops files0 p = .ok []) :
    convertLoop files0 inF outF (p :: restPaths) failed de =
      ⟨(convertLoop files0 inF outF restPaths failed de).result,
       (convertLoop files0 inF outF restPaths failed de).deadEnds,
       (p, AttemptOutcome.okEmpty) ::
         (convertLoop files0 inF outF restPaths failed de).events⟩ ∧
    (convertLoop files0 inF outF (p :: p :: restPaths) failed de).events =
      (p, AttemptOutcome.okEmpty) :: (p, AttemptOutcome.okEmpty) ::
        (convertLoop files0 inF outF restPaths failed de).events := by
  have h1 := convertLoop_okEmpty files0 inF outF p restPaths failed de [] hns hrun
    (by simp)
  refine ⟨h1, ?_⟩
  have h2 := convertLoop_okEmpty files0 inF outF p (p :: restPaths) failed de []
    hns hrun (by simp)
  rw [h2]
  show (p, AttemptOutcome.okEmpty) ::
      (convertLoop files0 inF outF (p :: restPaths) failed de).events = _
  rw [h1]

/-- Witness for C10: a concrete path with ok-but-empty output is attempted
twice when yielded twice. -/
theorem convertFiles_empty_ok_silent_witness :
    (convertLoop [fdIn] fmtIn fmtOut [pEmpty, pEmpty] [] []).events =
      (pEmpty, AttemptOutcome.okEmpty) :: (pEmpty, AttemptOutcome.okEmpty) ::
        (convertLoop [fdIn] fmtIn fmtOut [] [] []).events :=
  (convertFiles_empty_ok_silent [fdIn] fmtIn fmtOut pEmpty [] [] [] rfl rfl).2

/-- C4 (observed defect): when `findHandlerForFormat` returns null for the
requested input format, `convertFiles` silently substitutes the first
registered handler as the from-anchor of the search instead of surfacing
an unresolved-handler error; the only error the call can surface is the
terminal no-path error. -/
theorem convertFiles_fallback_anchor
    (searchPath : ConvertPathNode → ConvertPathNode → Bool →
      List (List ConvertPathNode))
    (files0 : List FileData) (inF outF : FileFormat) (h0 : Handler)
    (hs : List Handler) (simpleMode : Bool) (de : List (List ConvertPathNode))
    (hnone : findHandlerForFormat inF (h0 :: hs) = none) :
    convertFilesFull searchPath files0 inF outF h0 hs simpleMode de =
      convertFiles files0 inF outF
        (searchPath ⟨h0, inF⟩
          ⟨(findHandlerForFormat outF (h0 :: hs)).getD h0, outF⟩ simpleMode) de ∧
    (∀ msg,
      (convertFilesFull searchPath files0 inF outF h0 hs simpleMode de).result =
        .error msg → msg = noPathMsg inF outF) := by
  constructor
  · simp only [convertFilesFull]
    rw [hnone]
    rfl
  · intro msg hmsg
    exact convertLoop_error_msg files0 inF outF _ [] [] msg hmsg

/-- Witness for C4: with one registered handler supporting neither
requested format, the from-anchor is silently that handler and the run
ends in the terminal no-path error. -/
theorem convertFiles_fallback_anchor_witness :
    convertFilesFull (fun _ _ _ => []) [fdIn] fmtOrphan fmtOut hGood [] true [] =
      convertFiles [fdIn] fmtOrphan fmtOut [] [] :=
  (convertFiles_fallback_anchor (fun _ _ _ => []) [fdIn] fmtOrphan fmtOut hGood []
    true [] rfl).1

/-! ## Claim theorems: format detection -/

/-- A `from`-capable format matching the sample extension but not its
MIME, listed before the full match in the witness catalog. -/
def gExtOnly : FileFormat :=
  ⟨"svgx", "svgx", "svg", "application/other", true, false, false⟩

/-- `detectInputFormat` unfolded through the three strategy predicates. -/
theorem detectInputFormat_eq (normalizeMimeType : String → String) (file : JsFile)
    (allFormats : List FileFormat) :
    detectInputFormat normalizeMimeType file allFormats =
      match allFormats.find?
          (tier1 (fileExtension file.name) (normalizeMimeType file.type)) with
      | some m => some m
      | none =>
        match allFormats.find? (tier2 (fileExtension file.name)) with
        | some m => some m
        | none =>
          if normalizeMimeType file.type != "" then
            allFormats.find? (tier3 (normalizeMimeType file.type))
          else none := rfl

/-- C6: `detectInputFormat` resolves in three tiers with first match
winning, each tier restricted to `from`-capable formats: extension + MIME
(or absent MIME) first, then extension only, then MIME only (attempted
only when a MIME is present); when an extension+MIME match exists it is
returned even when a different extension-only match exists; when no tier
matches, the result is `none`. -/
theorem detectInputFormat_three_tiers (normalizeMimeType : String → String)
    (file : JsFile) (allFormats : List FileFormat) :
    (∀ g, allFormats.find?
        (tier1 (fileExtension file.name) (normalizeMimeType file.type)) = some g →
      detectInputFormat normalizeMimeType file allFormats = some g) ∧
    (allFormats.find?
        (tier1 (fileExtension file.name) (normalizeMimeType file.type)) = none →
      ∀ g, allFormats.find? (tier2 (fileExtension file.name)) = some g →
        detectInputFormat normalizeMimeType file allFormats = some g) ∧
    (allFormats.find?
        (tier1 (fileExtension file.name) (normalizeMimeType file.type)) = none →
      allFormats.find? (tier2 (fileExtension file.name)) = none →
      detectInputFormat normalizeMimeType file allFormats =
        (if normalizeMimeType file.type != "" then
          allFormats.find? (tier3 (normalizeMimeType file.type))
        else none)) ∧
    (normalizeMimeType file.type ≠ "" →
      ∀ f ∈ allFormats,
        tier1 (fileExtension file.name) (normalizeMimeType file.type) f = true →
      ∃ g, detectInputFormat normalizeMimeType file allFormats = some g ∧
        g.«from» = true ∧ strToLower g.extension = fileExtension file.name ∧
        g.mime = normalizeMimeType file.type) ∧
    ((∀ f ∈ allFormats,
        tier1 (fileExtension file.name) (normalizeMimeType file.type) f = false) →
      (∀ f ∈ allFormats, tier2 (fileExtension file.name) f = false) →
      (∀ f ∈ allFormats, tier3 (normalizeMimeType file.type) f = false) →
      detectInputFormat normalizeMimeType file allFormats = none) := by
  refine ⟨?_, ?_, ?_, ?_, ?_⟩
  · intro g hg
    rw [detectInputFormat_eq, hg]
  · intro h1 g hg
    rw [detectInputFormat_eq, h1, hg]
  · intro h1 h2
    rw [detectInputFormat_eq, h1, h2]
  · intro hm f hf ht
    rcases hfind : allFormats.find?
        (tier1 (fileExtension file.name) (normalizeMimeType file.type)) with _ | g
    · exact absurd ht (by simpa using List.find?_eq_none.mp hfind f hf)
    · have hg := List.find?_some hfind
      simp only [tier1, Bool.and_eq_true, Bool.or_eq_true, beq_iff_eq] at hg
      rcases hg with ⟨⟨hfrom, hext⟩, hmime | habs⟩
      · exact ⟨g, by rw [detectInputFormat_eq, hfind], hfrom, hext, hmime⟩
      · exact absurd habs hm
  · intro h1 h2 h3
    have f1 : allFormats.find?
        (tier1 (fileExtension file.name) (normalizeMimeType file.type)) = none :=
      List.find?_eq_none.mpr (fun a ha => by simp [h1 a ha])
    have f2 : allFormats.find? (tier2 (fileExtension file.name)) = none :=
      List.find?_eq_none.mpr (fun a ha => by simp [h2 a ha])
    have f3 : allFormats.find? (tier3 (normalizeMimeType file.type)) = none :=
      List.find?_eq_none.mpr (fun a ha => by simp [h3 a ha])
    rw [detectInputFormat_eq, f1, f2, f3]
    cases normalizeMimeType file.type != "" <;> rfl

/-- Witness for C6: with an extension-only match listed first and an
extension+MIME match listed second, the extension+MIME match is
returned. -/
theorem detectInputFormat_three_tiers_witness :
    detectInputFormat id ⟨"a.svg", "image/svg+xml"⟩ [gExtOnly, fmtIn] = some fmtIn :=
  (detectInputFormat_three_tiers id ⟨"a.svg", "image/svg+xml"⟩ [gExtOnly, fmtIn]).1
    fmtIn rfl

/-! ## Claim theorems: catalog merge -/

/-- The flags of a catalog entry after folding in a list of further
contributors with the same identity key. -/
def flagsOrMany (g : FileFormat) (fs : List FileFormat) : FileFormat :=
  { g with «from» := g.«from» || fs.any (·.«from»),
           «to» := g.«to» || fs.any (·.«to»),
           lossless := g.lossless || fs.any (·.lossless) }

/-- The first contributor of the C5 example pair: `from` only, lossy. -/
def cxA : FileFormat := ⟨"x", "i", "e1", "m1", true, false, false⟩

/-- The second contributor of the C5 example pair: `to` only, lossless,
with a different extension and MIME. -/
def cxB : FileFormat := ⟨"x", "i", "e2", "m2", false, true, true⟩

theorem flagsOrMany_nil (g : FileFormat) : flagsOrMany g [] = g := by
  simp [flagsOrMany]

theorem flagsOrMany_merge (g f : FileFormat) (fs : List FileFormat) :
    flagsOrMany (mergeFlags g f) fs = flagsOrMany g (f :: fs) := by
  simp [flagsOrMany, mergeFlags, Bool.or_assoc]

theorem keyOf_mergeFlags (g f : FileFormat) : keyOf (mergeFlags g f) = keyOf g := rfl

/-- How one `insertFormat` step changes the map's entry for key `k`. -/
theorem findEntry_insertFormat (acc : List (String × FileFormat)) (f : FileFormat)
    (k : String) :
    findEntry (insertFormat acc f) k =
      if keyOf f == k then
        (match findEntry acc k with
         | some g => some (mergeFlags g f)
         | none => some f)
      else findEntry acc k := by
  induction acc with
  | nil =>
    cases h : (keyOf f == k) <;> simp [insertFormat, findEntry, h]
  | cons e rest ih =>
    obtain ⟨e1, g1⟩ := e
    by_cases hk : (e1 == keyOf f)
    · have he : e1 = keyOf f := by simpa using hk
      subst he
      by_cases hfk : (keyOf f == k)
      · simp [insertFormat, findEntry, hfk]
      · simp [insertFormat, findEntry, hfk]
    · have hkb : (e1 == keyOf f) = false := by simpa using hk
      by_cases hek : (e1 == k)
      · have he : e1 = k := by simpa using hek
        subst he
        have hfk : (keyOf f == e1) = false := by
          rw [beq_eq_false_iff_ne]
          intro h
          exact hk (beq_iff_eq.mpr h.symm)
        simp [insertFormat, findEntry, hkb, hek, hfk]
      · have hekb : (e1 == k) = false := by simpa using hek
        simp only [insertFormat, hkb, Bool.false_eq_true, if_false]
        rw [findEntry, if_neg (by simp [hekb]), ih]
        rw [show findEntry ((e1, g1) :: rest) k = findEntry rest k from by
          rw [findEntry, if_neg (by simp [hekb])]]

/-- The deduplication fold, characterized entrywise: the entry for key `k`
merges the flags of every contributor whose identity key is `k`, in
list order on top of the map's previous entry (or the first contributor
when the key is fresh). -/
theorem foldl_insertFormat_findEntry (raw : List FileFormat) :
    ∀ (acc : List (String × FileFormat)) (k : String),
      findEntry (raw.foldl insertFormat acc) k =
        match findEntry acc k with
        | some g => some (flagsOrMany g (raw.filter (fun f => keyOf f == k)))
        | none =>
          match raw.filter (fun f => keyOf f == k) with
          | [] => none
          | f :: fs => some (flagsOrMany f fs) := by
  induction raw with
  | nil =>
    intro acc k
    cases h : findEntry acc k <;> simp [h, flagsOrMany_nil]
  | cons f raw' ih =>
    intro acc k
    rw [List.foldl_cons, ih (insertFormat acc f) k, findEntry_insertFormat acc f k]
    by_cases hfk : (keyOf f == k)
    · rw [List.filter_cons, if_pos hfk, if_pos hfk]
      cases h : findEntry acc k with
      | none => simp
      | some g => simp [flagsOrMany_merge]
    · have hfkb : (keyOf f == k) = false := by simpa using hfk
      rw [List.filter_cons, if_neg (by simp [hfkb]), if_neg (by simp [hfkb])]

/-- Every entry of the deduplication map stores a format whose identity
key is the entry's key. -/
theorem insertFormat_keys_vals (acc : List (String × FileFormat)) (f : FileFormat)
    (hkv : ∀ e ∈ acc, keyOf e.2 = e.1) :
    ∀ e ∈ insertFormat acc f, keyOf e.2 = e.1 := by
  induction acc with
  | nil =>
    intro e he
    simp only [insertFormat, List.mem_singleton] at he
    subst he
    rfl
  | cons a rest ih =>
    obtain ⟨a1, g1⟩ := a
    intro e he
    rw [insertFormat] at he
    by_cases hk : (a1 == keyOf f)
    · rw [if_pos hk] at he
      rcases List.mem_cons.mp he with rfl | he
      · have : keyOf g1 = a1 := hkv (a1, g1) (List.mem_cons_self _ _)
        simpa [keyOf_mergeFlags] using this
      · exact hkv e (List.mem_cons_of_mem _ he)
    · rw [if_neg hk] at he
      rcases List.mem_cons.mp he with rfl | he
      · exact hkv (a1, g1) (List.mem_cons_self _ _)
      · exact ih (fun e' he' => hkv e' (List.mem_cons_of_mem _ he')) e he

/-- Key/value coherence for the whole fold. -/
theorem foldl_insertFormat_keys_vals (raw : List FileFormat) :
    ∀ (acc : List (String × FileFormat)), (∀ e ∈ acc, keyOf e.2 = e.1) →
      ∀ e ∈ raw.foldl insertFormat acc, keyOf e.2 = e.1 := by
  induction raw with
  | nil => intro acc hkv e he; exact hkv e he
  | cons f raw' ih =>
    intro acc hkv e he
    rw [List.foldl_cons] at he
    exact ih (insertFormat acc f) (insertFormat_keys_vals acc f hkv) e he

/-- `findEntry` is `none` exactly when the key is absent. -/
theorem findEntry_eq_none_iff (c : List (String × FileFormat)) (k : String) :
    findEntry c k = none ↔ ∀ e ∈ c, e.1 ≠ k := by
  induction c with
  | nil => simp [findEntry]
  | cons a rest ih =>
    obtain ⟨a1, g1⟩ := a
    by_cases hk : (a1 == k)
    · have : a1 = k := by simpa using hk
      subst this
      simp [findEntry, hk]
    · have hkb : (a1 == k) = false := by simpa using hk
      rw [findEntry, if_neg (by simp [hkb])]
      rw [ih]
      constructor
      · intro h e he
        rcases List.mem_cons.mp he with rfl | he
        · simpa using hk
        · exact h e he
      · intro h e he
        exact h e (List.mem_cons_of_mem _ he)

/-- How one insertion changes the key list: an existing key leaves it
unchanged, a fresh key is appended. -/
theorem keys_insertFormat (acc : List (String × FileFormat)) (f : FileFormat) :
    (insertFormat acc f).map (·.1) =
      if (findEntry acc (keyOf f)).isSome then acc.map (·.1)
      else acc.map (·.1) ++ [keyOf f] := by
  induction acc with
  | nil => simp [insertFormat, findEntry]
  | cons a rest ih =>
    obtain ⟨a1, g1⟩ := a
    by_cases hk : (a1 == keyOf f)
    · rw [insertFormat, if_pos hk]
      rw [show findEntry ((a1, g1) :: rest) (keyOf f) = some g1 from by
        rw [findEntry, if_pos hk]]
      simp
    · have hkb : (a1 == keyOf f) = false := by simpa using hk
      rw [insertFormat, if_neg (by simp [hkb])]
      rw [show findEntry ((a1, g1) :: rest) (keyOf f) = findEntry rest (keyOf f) from by
        rw [findEntry, if_neg (by simp [hkb])]]
      cases h : (findEntry rest (keyOf f)).isSome with
      | true => simp [ih, h]
      | false => simp [ih, h]

/-- Insertion preserves distinctness of the map's keys. -/
theorem keys_insertFormat_nodup (acc : List (String × FileFormat)) (f : FileFormat)
    (h : (acc.map (·.1)).Nodup) : ((insertFormat acc f).map (·.1)).Nodup := by
  rw [keys_insertFormat]
  split
  · exact h
  · rename_i hfe
    have habs : findEntry acc (keyOf f) = none := by
      cases hx : findEntry acc (keyOf f)
      · rfl
      · rw [hx] at hfe; simp at hfe
    have hnotin : keyOf f ∉ acc.map (·.1) := by
      intro hin
      rcases List.mem_map.mp hin with ⟨e, he, heq⟩
      exact (findEntry_eq_none_iff acc (keyOf f)).mp habs e he heq
    rw [List.nodup_append]
    exact ⟨h, List.nodup_singleton _, by simpa using hnotin⟩

/-- The deduplication map of `initializeEngine` has pairwise-distinct
keys. -/
theorem foldl_insertFormat_keys_nodup (raw : List FileFormat) :
    ∀ (acc : List (String × FileFormat)), ((acc.map (·.1)).Nodup) →
      (((raw.foldl insertFormat acc).map (·.1)).Nodup) := by
  induction raw with
  | nil => intro acc h; exact h
  | cons f raw' ih =>
    intro acc h
    rw [List.foldl_cons]
    exact ih (insertFormat acc f) (keys_insertFormat_nodup acc f h)

/-- Searching the catalog's value list by identity key agrees with the
entry lookup in the deduplication map. -/
theorem find?_values_eq_findEntry (c : List (String × FileFormat))
    (hkv : ∀ e ∈ c, keyOf e.2 = e.1) (k : String) :
    (c.map (·.2)).find? (fun g => keyOf g == k) = findEntry c k := by
  induction c with
  | nil => rfl
  | cons a rest ih =>
    obtain ⟨a1, g1⟩ := a
    have hg : keyOf g1 = a1 := hkv (a1, g1) (List.mem_cons_self _ _)
    rw [List.map_cons]
    dsimp only
    rw [List.find?_cons]
    by_cases h : (keyOf g1 == k)
    · rw [show (keyOf g1 == k) = true from h]
      rw [findEntry, if_pos (show (a1 == k) = true from by rw [← hg]; exact h)]
    · have hb : (keyOf g1 == k) = false := by simpa using h
      rw [hb]
      rw [findEntry, if_neg (show ¬ (a1 == k) = true from by rw [← hg]; simp [hb])]
      exact ih (fun e he => hkv e (List.mem_cons_of_mem _ he))

/-- Boolean `any` is invariant under permutation. -/
theorem any_eq_of_perm {α : Type} {l l' : List α} (p : α → Bool) (h : l.Perm l') :
    l.any p = l'.any p := by
  rw [Bool.eq_iff_iff]
  simp only [List.any_eq_true]
  constructor
  · rintro ⟨x, hx, hpx⟩
    exact ⟨x, h.mem_iff.mp hx, hpx⟩
  · rintro ⟨x, hx, hpx⟩
    exact ⟨x, h.mem_iff.mpr hx, hpx⟩

/-- The merged flag triple of an identity key is the `or` over exactly the
contributing raw formats with that key. -/
theorem mergedFlags_char (raw : List FileFormat) (k : String) :
    mergedFlags raw k =
      if raw.filter (fun f => keyOf f == k) = [] then none
      else some ((raw.filter (fun f => keyOf f == k)).any (·.«from»),
                 (raw.filter (fun f => keyOf f == k)).any (·.«to»),
                 (raw.filter (fun f => keyOf f == k)).any (·.lossless)) := by
  have hkv := foldl_insertFormat_keys_vals raw [] (by simp)
  rw [mergedFlags, mergeFormats, find?_values_eq_findEntry _ hkv k,
    foldl_insertFormat_findEntry raw [] k]
  cases hfilter : raw.filter (fun f => keyOf f == k) with
  | nil => rfl
  | cons f fs =>
    rw [if_neg (by simp)]
    simp [findEntry, flagsOrMany, List.any_cons]

/-- The merged flag triple of every identity key is independent of the
order of the contributing list. -/
theorem mergedFlags_perm (raw raw' : List FileFormat) (k : String)
    (h : raw.Perm raw') : mergedFlags raw k = mergedFlags raw' k := by
  rw [mergedFlags_char, mergedFlags_char]
  have hperm : (raw.filter (fun f => keyOf f == k)).Perm
      (raw'.filter (fun f => keyOf f == k)) := h.filter _
  by_cases hnil : raw.filter (fun f => keyOf f == k) = []
  · rw [hnil] at hperm
    rw [if_pos hnil, if_pos (hperm.symm.eq_nil)]
  · have hnil' : raw'.filter (fun f => keyOf f == k) ≠ [] := by
      intro hx
      rw [hx] at hperm
      exact hnil hperm.eq_nil
    rw [if_neg hnil, if_neg hnil',
      any_eq_of_perm (·.«from») hperm, any_eq_of_perm (·.«to») hperm,
      any_eq_of_perm (·.lossless) hperm]

/-- C5 counterexample: the merge result is not independent of the order of
the contributing list — two contributors with the same identity key but
different extensions merge to an entry carrying the first contributor's
extension, so the two orders differ. -/
theorem mergeFormats_order_dependent :
    mergeFormats [cxA, cxB] ≠ mergeFormats [cxB, cxA] := by decide

/-- C5 (amended): the catalog merge produces exactly one entry per
identity key (keys are pairwise distinct and every contributor's key is
present), the `(from, to, lossless)` flags of each key are the logical or
over exactly the contributors with that key, and that flag triple — though
not the whole merged record, whose remaining fields come from the first
contributor — is independent of the order of the contributing list; the
example pair merges to flags `(true, true, true)` in either order. -/
theorem mergeFormats_merge_spec (raw raw' : List FileFormat) (k : String)
    (hperm : raw.Perm raw') :
    ((mergeFormats raw).map keyOf).Nodup ∧
    (∀ f ∈ raw, mergedFlags raw (keyOf f) ≠ none) ∧
    (mergedFlags raw k =
      if raw.filter (fun f => keyOf f == k) = [] then none
      else some ((raw.filter (fun f => keyOf f == k)).any (·.«from»),
                 (raw.filter (fun f => keyOf f == k)).any (·.«to»),
                 (raw.filter (fun f => keyOf f == k)).any (·.lossless))) ∧
    mergedFlags raw k = mergedFlags raw' k ∧
    (mergedFlags [cxA, cxB] "x::i" = some (true, true, true) ∧
     mergedFlags [cxB, cxA] "x::i" = some (true, true, true)) := by
  refine ⟨?_, ?_, mergedFlags_char raw k, mergedFlags_perm raw raw' k hperm,
    by decide, by decide⟩
  · have hkeys : (mergeFormats raw).map keyOf =
        (raw.foldl insertFormat []).map (·.1) := by
      rw [mergeFormats, List.map_map]
      exact List.map_congr_left
        (foldl_insertFormat_keys_vals raw [] (by simp))
    rw [hkeys]
    exact foldl_insertFormat_keys_nodup raw [] (by simp)
  · intro f hf
    rw [mergedFlags_char]
    have hmem : f ∈ raw.filter (fun g => keyOf g == keyOf f) :=
      List.mem_filter.mpr ⟨hf, by simp⟩
    have hne : raw.filter (fun g => keyOf g == keyOf f) ≠ [] := by
      intro hx
      rw [hx] at hmem
      simp at hmem
    rw [if_neg hne]
    simp

/-- Witness for C5: the example pair's merged flags agree across the two
orders. -/
theorem mergeFormats_merge_spec_witness :
    mergedFlags [cxA, cxB] "x::i" = mergedFlags [cxB, cxA] "x::i" :=
  (mergeFormats_merge_spec [cxA, cxB] [cxB, cxA] "x::i"
    (List.Perm.swap cxB cxA [])).2.2.2.1

/-! ## Engine bootstrap lemmas -/

/-- A handler found in the cache adopts the cached formats; its `init` is
not invoked. -/
theorem initLoop_cached (s : InitState) (h : Handler) (tl : List Handler)
    (fs : List FileFormat) (hl : lookupCache s.cache h.name = some fs) :
    initLoop s (h :: tl) =
      ({ h with supportedFormats := some fs } :: (initLoop s tl).1,
       (initLoop s tl).2) := by
  rw [initLoop, hl]

/-- A cache-missing handler whose `init` rejects is skipped, leaving the
cache and raw-format list untouched. -/
theorem initLoop_throws (s : InitState) (h : Handler) (tl : List Handler)
    (hl : lookupCache s.cache h.name = none) (ht : h.initThrows = true) :
    initLoop s (h :: tl) =
      (h :: (initLoop { s with inited := s.inited ++ [h.name] } tl).1,
       (initLoop { s with inited := s.inited ++ [h.name] } tl).2) := by
  rw [initLoop, hl, if_pos ht]

/-- A cache-missing handler whose `init` succeeds and populates its
formats stores them in the cache and appends them to the raw list. -/
theorem initLoop_init_some (s : InitState) (h : Handler) (tl : List Handler)
    (fs : List FileFormat) (hl : lookupCache s.cache h.name = none)
    (ht : h.initThrows = false) (hf : h.initFormats = some fs) :
    initLoop s (h :: tl) =
      ({ h with supportedFormats := some fs } ::
        (initLoop ⟨s.cache ++ [(h.name, fs)], s.raw ++ fs,
          s.inited ++ [h.name]⟩ tl).1,
       (initLoop ⟨s.cache ++ [(h.name, fs)], s.raw ++ fs,
          s.inited ++ [h.name]⟩ tl).2) := by
  rw [initLoop, hl, if_neg (by simp [ht]), hf]

/-- A cache-missing handler whose `init` succeeds without populating
formats contributes nothing. -/
theorem initLoop_init_none (s : InitState) (h : Handler) (tl : List Handler)
    (hl : lookupCache s.cache h.name = none) (ht : h.initThrows = false)
    (hf : h.initFormats = none) :
    initLoop s (h :: tl) =
      (h :: (initLoop { s with inited := s.inited ++ [h.name] } tl).1,
       (initLoop { s with inited := s.inited ++ [h.name] } tl).2) := by
  rw [initLoop, hl, if_neg (by simp [ht]), hf]

/-- A cache hit survives appending further entries. -/
theorem lookupCache_append_some (c d : List (String × List FileFormat))
    (n : String) (v : List FileFormat) (h : lookupCache c n = some v) :
    lookupCache (c ++ d) n = some v := by
  induction c with
  | nil => rw [lookupCache] at h; exact absurd h (by simp)
  | cons e rest ih =>
    obtain ⟨k, w⟩ := e
    rw [List.cons_append, lookupCache]
    rw [lookupCache] at h
    by_cases hk : (k == n)
    · rw [if_pos hk] at h ⊢
      exact h
    · rw [if_neg hk] at h ⊢
      exact ih h

/-- A miss on an appended cache is a miss on its prefix. -/
theorem lookupCache_append_none (c d : List (String × List FileFormat))
    (n : String) (h : lookupCache (c ++ d) n = none) : lookupCache c n = none := by
  induction c with
  | nil => rfl
  | cons e rest ih =>
    obtain ⟨k, w⟩ := e
    rw [List.cons_append, lookupCache] at h
    rw [lookupCache]
    by_cases hk : (k == n)
    · rw [if_pos hk] at h
      exact absurd h (by simp)
    · rw [if_neg hk] at h ⊢
      exact ih h

/-- Every handler name recorded as initialized was absent from the cache
the loop started with. -/
theorem initLoop_inited_mem (hs : List Handler) :
    ∀ (s : InitState) (n : String), n ∈ (initLoop s hs).2.inited →
      n ∈ s.inited ∨ lookupCache s.cache n = none := by
  induction hs with
  | nil => intro s n hn; exact Or.inl hn
  | cons h tl ih =>
    intro s n hn
    cases hl : lookupCache s.cache h.name with
    | some fs =>
      rw [initLoop_cached s h tl fs hl] at hn
      exact ih s n hn
    | none =>
      cases ht : h.initThrows with
      | true =>
        rw [initLoop_throws s h tl hl ht] at hn
        rcases ih _ n hn with hin | hnone
        · rcases List.mem_append.mp hin with hin | hin
          · exact Or.inl hin
          · simp only [List.mem_singleton] at hin
            subst hin
            exact Or.inr hl
        · exact Or.inr hnone
      | false =>
        cases hf : h.initFormats with
        | some fs =>
          rw [initLoop_init_some s h tl fs hl ht hf] at hn
          rcases ih _ n hn with hin | hnone
          · rcases List.mem_append.mp hin with hin | hin
            · exact Or.inl hin
            · simp only [List.mem_singleton] at hin
              subst hin
              exact Or.inr hl
          · exact Or.inr (lookupCache_append_none s.cache _ n hnone)
        | none =>
          rw [initLoop_init_none s h tl hl ht hf] at hn
          rcases ih _ n hn with hin | hnone
          · rcases List.mem_append.mp hin with hin | hin
            · exact Or.inl hin
            · simp only [List.mem_singleton] at hin
              subst hin
              exact Or.inr hl
          · exact Or.inr hnone

/-- A handler whose name is cached at its turn keeps its position and gets
exactly the cached formats; the cache only grows, so a snapshot entry
stays visible for the whole loop. -/
theorem initLoop_get_cached (hs : List Handler) :
    ∀ (s : InitState) (i : Nat) (hi : i < hs.length) (fs : List FileFormat),
      lookupCache s.cache ((hs.get ⟨i, hi⟩).name) = some fs →
      ∃ hi' : i < (initLoop s hs).1.length,
        (initLoop s hs).1.get ⟨i, hi'⟩ =
          { hs.get ⟨i, hi⟩ with supportedFormats := some fs } := by
  induction hs with
  | nil => intro s i hi; exact absurd hi (by simp)
  | cons h tl ih =>
    intro s i hi fs hlk
    cases i with
    | zero =>
      have hl : lookupCache s.cache h.name = some fs := hlk
      rw [initLoop_cached s h tl fs hl]
      exact ⟨by simp, rfl⟩
    | succ j =>
      have hj : j < tl.length := Nat.lt_of_succ_lt_succ hi
      have hlk2 : lookupCache s.cache ((tl.get ⟨j, hj⟩).name) = some fs := hlk
      cases hl : lookupCache s.cache h.name with
      | some fs0 =>
        rw [initLoop_cached s h tl fs0 hl]
        obtain ⟨hj', hres⟩ := ih s j hj fs hlk2
        exact ⟨Nat.succ_lt_succ hj', hres⟩
      | none =>
        cases ht : h.initThrows with
        | true =>
          rw [initLoop_throws s h tl hl ht]
          obtain ⟨hj', hres⟩ := ih { s with inited := s.inited ++ [h.name] } j hj fs hlk2
          exact ⟨Nat.succ_lt_succ hj', hres⟩
        | false =>
          cases hf : h.initFormats with
          | some fs0 =>
            rw [initLoop_init_some s h tl fs0 hl ht hf]
            obtain ⟨hj', hres⟩ := ih
              ⟨s.cache ++ [(h.name, fs0)], s.raw ++ fs0, s.inited ++ [h.name]⟩ j hj fs
              (lookupCache_append_some s.cache [(h.name, fs0)] _ fs hlk2)
            exact ⟨Nat.succ_lt_succ hj', hres⟩
          | none =>
            rw [initLoop_init_none s h tl hl ht hf]
            obtain ⟨hj', hres⟩ := ih { s with inited := s.inited ++ [h.name] } j hj fs hlk2
            exact ⟨Nat.succ_lt_succ hj', hres⟩

/-! ## Claim theorems: bootstrap -/

/-- C7: a handler listed in the loaded capability snapshot never has its
`init` invoked during bootstrap and ends up with `supportedFormats`
exactly equal to the snapshot's cached list for its name; every handler
whose `init` was invoked was absent from the snapshot. -/
theorem initializeEngine_snapshot_skips_init
    (entries : List (String × List FileFormat)) (handlers : List Handler)
    (i : Nat) (hi : i < handlers.length) (fs : List FileFormat)
    (hlk : lookupCache entries ((handlers.get ⟨i, hi⟩).name) = some fs) :
    ∃ hi' : i < ((initializeEngine (some entries) handlers).1.handlers).length,
      ((initializeEngine (some entries) handlers).1.handlers).get ⟨i, hi'⟩ =
        { handlers.get ⟨i, hi⟩ with supportedFormats := some fs } ∧
      (handlers.get ⟨i, hi⟩).name ∉ (initializeEngine (some entries) handlers).2 ∧
      (∀ n ∈ (initializeEngine (some entries) handlers).2,
        lookupCache entries n = none) := by
  have habsent : ∀ n ∈ (initializeEngine (some entries) handlers).2,
      lookupCache entries n = none := by
    intro n hn
    rcases initLoop_inited_mem handlers (initState (some entries)) n hn with hin | hnone
    · exact absurd hin (by simp [initState])
    · exact hnone
  obtain ⟨hi', hres⟩ := initLoop_get_cached handlers (initState (some entries)) i hi fs hlk
  refine ⟨hi', hres, ?_, habsent⟩
  intro hmem
  rw [habsent _ hmem] at hlk
  exact Option.noConfusion hlk

/-- Witness for C7: a one-entry snapshot for the sample handler is adopted
verbatim and its init is skipped. -/
theorem initializeEngine_snapshot_skips_init_witness :
    "good" ∉ (initializeEngine (some [("good", [fmtIn])]) [hGood]).2 := by
  obtain ⟨hi', _, hnot, _⟩ := initializeEngine_snapshot_skips_init
    [("good", [fmtIn])] [hGood] 0 (by decide) [fmtIn] rfl
  exact hnot

/-- The handler loop processes an appended list compositionally. -/
theorem initLoop_append (pre : List Handler) :
    ∀ (post : List Handler) (s : InitState),
      initLoop s (pre ++ post) =
        ((initLoop s pre).1 ++ (initLoop (initLoop s pre).2 post).1,
         (initLoop (initLoop s pre).2 post).2) := by
  induction pre with
  | nil => intro post s; rfl
  | cons h tl ih =>
    intro post s
    rw [List.cons_append]
    cases hl : lookupCache s.cache h.name with
    | some fs =>
      rw [initLoop_cached s h (tl ++ post) fs hl, initLoop_cached s h tl fs hl,
        ih post s, List.cons_append]
    | none =>
      cases ht : h.initThrows with
      | true =>
        rw [initLoop_throws s h (tl ++ post) hl ht, initLoop_throws s h tl hl ht,
          ih post _, List.cons_append]
      | false =>
        cases hf : h.initFormats with
        | some fs =>
          rw [initLoop_init_some s h (tl ++ post) fs hl ht hf,
            initLoop_init_some s h tl fs hl ht hf, ih post _, List.cons_append]
        | none =>
          rw [initLoop_init_none s h (tl ++ post) hl ht hf,
            initLoop_init_none s h tl hl ht hf, ih post _, List.cons_append]

/-- The handler list, cache and raw formats produced by the loop do not
depend on the initialized-names accumulator. -/
theorem initLoop_inited_shift (hs : List Handler) :
    ∀ (c : List (String × List FileFormat)) (raw : List FileFormat)
      (i1 i2 : List String),
      (initLoop ⟨c, raw, i1⟩ hs).1 = (initLoop ⟨c, raw, i2⟩ hs).1 ∧
      (initLoop ⟨c, raw, i1⟩ hs).2.cache = (initLoop ⟨c, raw, i2⟩ hs).2.cache ∧
      (initLoop ⟨c, raw, i1⟩ hs).2.raw = (initLoop ⟨c, raw, i2⟩ hs).2.raw := by
  induction hs with
  | nil => intro c raw i1 i2; exact ⟨rfl, rfl, rfl⟩
  | cons h tl ih =>
    intro c raw i1 i2
    cases hl : lookupCache c h.name with
    | some fs =>
      rw [initLoop_cached ⟨c, raw, i1⟩ h tl fs hl, initLoop_cached ⟨c, raw, i2⟩ h tl fs hl]
      obtain ⟨h1, h2, h3⟩ := ih c raw i1 i2
      exact ⟨by rw [h1], by simpa using h2, by simpa using h3⟩
    | none =>
      cases ht : h.initThrows with
      | true =>
        rw [initLoop_throws ⟨c, raw, i1⟩ h tl hl ht,
          initLoop_throws ⟨c, raw, i2⟩ h tl hl ht]
        obtain ⟨h1, h2, h3⟩ := ih c raw (i1 ++ [h.name]) (i2 ++ [h.name])
        exact ⟨by rw [h1], by simpa using h2, by simpa using h3⟩
      | false =>
        cases hf : h.initFormats with
        | some fs =>
          rw [initLoop_init_some ⟨c, raw, i1⟩ h tl fs hl ht hf,
            initLoop_init_some ⟨c, raw, i2⟩ h tl fs hl ht hf]
          obtain ⟨h1, h2, h3⟩ := ih (c ++ [(h.name, fs)]) (raw ++ fs)
            (i1 ++ [h.name]) (i2 ++ [h.name])
          exact ⟨by rw [h1], by simpa using h2, by simpa using h3⟩
        | none =>
          rw [initLoop_init_none ⟨c, raw, i1⟩ h tl hl ht hf,
            initLoop_init_none ⟨c, raw, i2⟩ h tl hl ht hf]
          obtain ⟨h1, h2, h3⟩ := ih c raw (i1 ++ [h.name]) (i2 ++ [h.name])
          exact ⟨by rw [h1], by simpa using h2, by simpa using h3⟩

/-- With no snapshot and every handler's `init` rejecting, the loop leaves
the cache empty and the raw-format list unchanged. -/
theorem initLoop_all_throws (hs : List Handler) :
    ∀ (raw : List FileFormat) (inited : List String),
      (∀ h2 ∈ hs, h2.initThrows = true) →
      (initLoop ⟨[], raw, inited⟩ hs).2.cache = [] ∧
      (initLoop ⟨[], raw, inited⟩ hs).2.raw = raw := by
  induction hs with
  | nil => intro raw inited _; exact ⟨rfl, rfl⟩
  | cons h tl ih =>
    intro raw inited hall
    have hl : lookupCache ([] : List (String × List FileFormat)) h.name = none := rfl
    rw [initLoop_throws ⟨[], raw, inited⟩ h tl hl (hall h (List.mem_cons_self _ _))]
    exact ih raw (inited ++ [h.name]) (fun h2 hh2 => hall h2 (List.mem_cons_of_mem _ hh2))

/-- C8: a handler whose `init` throws during bootstrap is caught and
excluded — the cache and the merged catalog are exactly what they would be
without it, while the handler object itself stays registered — and the
engine still becomes ready; with no snapshot and every handler failing,
the engine is ready with an empty cache and catalog. -/
theorem initializeEngine_init_failure_excluded
    (snapshot : Option (List (String × List FileFormat)))
    (pre post : List Handler) (h : Handler)
    (hthrow : h.initThrows = true)
    (hnc : lookupCache ((initLoop (initState snapshot) pre).2).cache h.name = none) :
    (initializeEngine snapshot (pre ++ h :: post)).1.supportedFormatCache =
      (initializeEngine snapshot (pre ++ post)).1.supportedFormatCache ∧
    (initializeEngine snapshot (pre ++ h :: post)).1.allFormats =
      (initializeEngine snapshot (pre ++ post)).1.allFormats ∧
    (initializeEngine snapshot (pre ++ h :: post)).1.ready = true ∧
    h ∈ (initializeEngine snapshot (pre ++ h :: post)).1.handlers ∧
    (∀ handlers : List Handler, (∀ h2 ∈ handlers, h2.initThrows = true) →
      (initializeEngine none handlers).1.allFormats = [] ∧
      (initializeEngine none handlers).1.supportedFormatCache = [] ∧
      (initializeEngine none handlers).1.ready = true) := by
  rcases hdef : (initLoop (initState snapshot) pre).2 with ⟨c1, r1, i1⟩
  rw [hdef] at hnc
  have happ1 := initLoop_append pre (h :: post) (initState snapshot)
  have happ2 := initLoop_append pre post (initState snapshot)
  have hstep := initLoop_throws ⟨c1, r1, i1⟩ h post hnc hthrow
  have hshift := initLoop_inited_shift post c1 r1 (i1 ++ [h.name]) i1
  refine ⟨?_, ?_, rfl, ?_, ?_⟩
  · show (initLoop (initState snapshot) (pre ++ h :: post)).2.cache =
      (initLoop (initState snapshot) (pre ++ post)).2.cache
    rw [happ1, happ2, hdef, hstep]
    exact hshift.2.1
  · show mergeFormats (initLoop (initState snapshot) (pre ++ h :: post)).2.raw =
      mergeFormats (initLoop (initState snapshot) (pre ++ post)).2.raw
    rw [happ1, happ2, hdef, hstep]
    exact congrArg mergeFormats hshift.2.2
  · show h ∈ (initLoop (initState snapshot) (pre ++ h :: post)).1
    rw [happ1, hdef, hstep]
    exact List.mem_append.mpr (Or.inr (List.mem_cons_self _ _))
  · intro handlers hall
    refine ⟨?_, ?_, rfl⟩
    · show mergeFormats (initLoop ⟨[], [], []⟩ handlers).2.raw = []
      rw [(initLoop_all_throws handlers [] [] hall).2]
      rfl
    · show (initLoop ⟨[], [], []⟩ handlers).2.cache = []
      exact (initLoop_all_throws handlers [] [] hall).1

/-- A handler whose `init` always rejects, used by the C8 witness. -/
def hInitFail : Handler :=
  ⟨"initfail", false, none, true, some [fmtOrphan], fun _ _ _ => .error ()⟩

/-- Witness for C8: a single failing handler yields the same catalog as no
handler at all. -/
theorem initializeEngine_init_failure_excluded_witness :
    (initializeEngine none ([] ++ hInitFail :: [])).1.allFormats =
      (initializeEngine none ([] ++ [])).1.allFormats :=
  (initializeEngine_init_failure_excluded none [] [] hInitFail rfl rfl).2.1

/-! ## Claim theorems: engine memoization -/

/-- Invariant of the `getEngine` module state: every completed call
received the built engine, the stored instance (when set) is the built
engine, and construction started at most once (exactly when the promise
is set). -/
def sysInv (built : Engine) (s : SysState) : Prop :=
  (∀ ce ∈ s.completed, ce.2 = built) ∧
  (s.engineInstance = none ∨ s.engineInstance = some built) ∧
  s.builds ≤ 1 ∧
  (s.initPromiseActive = true ↔ s.builds = 1)

/-- The `getEngine` protocol preserves the module-state invariant. -/
theorem sysInv_step (built : Engine) (s : SysState) (ev : GetEvent)
    (hinv : sysInv built s) : sysInv built (getEngineStep built s ev) := by
  obtain ⟨hcomp, hinst, hb, hiff⟩ := hinv
  have hfresh : ¬ s.initPromiseActive = true → s.builds = 0 := by
    intro ha
    have : s.builds ≠ 1 := fun h => ha (hiff.mpr h)
    omega
  cases ev with
  | call cid =>
    rw [getEngineStep]
    cases hi : s.engineInstance with
    | some e =>
      have he : e = built := by
        rcases hinst with h0 | h0
        · rw [h0] at hi; exact absurd hi (by simp)
        · rw [h0] at hi; exact (Option.some.inj hi).symm
      subst he
      dsimp only
      by_cases hr : e.ready = true
      · rw [if_pos hr]
        refine ⟨?_, Or.inr rfl, hb, hiff⟩
        intro ce hce
        rcases List.mem_cons.mp hce with rfl | hce
        · rfl
        · exact hcomp ce hce
      · rw [if_neg hr]
        by_cases ha : s.initPromiseActive = true
        · rw [if_pos ha]
          exact ⟨hcomp, Or.inr rfl, hb, hiff⟩
        · rw [if_neg ha]
          have h0 := hfresh ha
          refine ⟨hcomp, Or.inr rfl, by show s.builds + 1 ≤ 1; omega, ?_⟩
          constructor
          · intro _; show s.builds + 1 = 1; omega
          · intro _; rfl
    | none =>
      dsimp only
      by_cases ha : s.initPromiseActive = true
      · rw [if_pos ha]
        exact ⟨hcomp, Or.inl rfl, hb, hiff⟩
      · rw [if_neg ha]
        have h0 := hfresh ha
        refine ⟨hcomp, Or.inl rfl, by show s.builds + 1 ≤ 1; omega, ?_⟩
        constructor
        · intro _; show s.builds + 1 = 1; omega
        · intro _; rfl
  | resolve =>
    rw [getEngineStep]
    by_cases ha : s.initPromiseActive = true
    · rw [if_pos ha]
      refine ⟨?_, Or.inr rfl, hb, hiff⟩
      intro ce hce
      rcases List.mem_append.mp hce with hce | hce
      · rcases List.mem_map.mp hce with ⟨c, _, rfl⟩
        rfl
      · exact hcomp ce hce
    · rw [if_neg ha]
      exact ⟨hcomp, hinst, hb, hiff⟩

/-- The invariant holds after any event sequence from the initial module
state. -/
theorem runSys_inv (built : Engine) (evs : List GetEvent) :
    sysInv built (runSys built evs) := by
  suffices h : ∀ s, sysInv built s → sysInv built (evs.foldl (getEngineStep built) s) by
    refine h sysInit ⟨?_, Or.inl rfl, ?_, ?_⟩
    · intro ce hce; simp [sysInit] at hce
    · simp [sysInit]
    · simp [sysInit]
  induction evs with
  | nil => intro s hs; exact hs
  | cons e tl ih =>
    intro s hs
    exact ih (getEngineStep built s e) (sysInv_step built s e hs)

/-- C9: `getEngine` is idempotent and globally memoized under the
single-threaded event semantics of the module: any two completed calls in
one process — whether they found the ready instance, joined the in-flight
construction, or triggered it — receive the same engine object,
construction is started at most once, and the built engine is ready. -/
theorem getEngine_memoized (snapshot : Option (List (String × List FileFormat)))
    (handlers : List Handler) (evs : List GetEvent) (cid1 cid2 : Nat)
    (e1 e2 : Engine)
    (h1 : (cid1, e1) ∈ (runSys (initializeEngine snapshot handlers).1 evs).completed)
    (h2 : (cid2, e2) ∈ (runSys (initializeEngine snapshot handlers).1 evs).completed) :
    e1 = e2 ∧ (runSys (initializeEngine snapshot handlers).1 evs).builds ≤ 1 ∧
    (initializeEngine snapshot handlers).1.ready = true := by
  obtain ⟨hcomp, _, hb, _⟩ := runSys_inv (initializeEngine snapshot handlers).1 evs
  have he1 : e1 = (initializeEngine snapshot handlers).1 := hcomp (cid1, e1) h1
  have he2 : e2 = (initializeEngine snapshot handlers).1 := hcomp (cid2, e2) h2
  exact ⟨he1.trans he2.symm, hb, rfl⟩

/-- Witness for C9: two calls that join the same in-flight construction
and one call after readiness all complete with the same engine; the build
ran once. -/
theorem getEngine_memoized_witness :
    (runSys ((initializeEngine none []).1)
      [GetEvent.call 0, GetEvent.call 1, GetEvent.resolve, GetEvent.call 2]).builds
      ≤ 1 :=
  (getEngine_memoized none []
    [GetEvent.call 0, GetEvent.call 1, GetEvent.resolve, GetEvent.call 2] 0 1
    ((initializeEngine none []).1) ((initializeEngine none []).1)
    (List.Mem.tail _ (List.Mem.tail _ (List.Mem.head _)))
    (List.Mem.tail _ (List.Mem.head _))).2.1
